import Mathlib

/-!
Verification of the pairwise segment-intersection engine of CG-LAB.

The enumeration driver (`runPass`, `testedPairs`, `resultPairs`) is a direct
embedding of the nested loop of `src/lab3/sympy_intersections.py` (lines
14-20): the outer and inner loops enumerate the stored segment list, pairs
with `j <= index` are skipped, the intersection predicate is applied, and any
non-empty result is appended to the output sequence.

The geometric predicate itself is the third-party `sympy`
`Segment.intersection` routine, which is not part of the repository's
sources; it is modelled here from the specification's explicit replacement
predicate (spec section 4.2), as is the Segment Store `load` validation
(spec section 4.1).  The command-line handling of `src/lab3/visualize.py`
(lines 11-18 and 25-28) is embedded as `parseArgv`.

Coordinates are rationals: the specification demands an exact geometric
predicate, and the embedding keeps every definition executable.
-/

namespace CGLab

/-- A 2-D point: a pair of coordinates, exact equality (spec section 3). -/
@[ext]
structure Pt where
  x : ℚ
  y : ℚ
deriving DecidableEq

/-- A segment: an ordered pair of endpoints A and B (spec section 3). -/
structure Seg where
  A : Pt
  B : Pt
deriving DecidableEq

/-- IntersectionResult: a tagged variant over a single crossing point or a
collinear overlapping sub-segment (spec section 3); absence of intersection
is `Option.none` around this type. -/
inductive Res where
  | point (p : Pt)
  | overlap (p q : Pt)
deriving DecidableEq

/-- Sign of a rational number, valued in {-1, 0, 1}. -/
def sgn (a : ℚ) : ℤ :=
  if a < 0 then -1 else if a = 0 then 0 else 1

/-- Cross product (Q.x-P.x)*(R.y-P.y) - (Q.y-P.y)*(R.x-P.x) underlying the
orientation predicate of spec section 4.2 step 1. -/
def cross (P Q R : Pt) : ℚ :=
  (Q.x - P.x) * (R.y - P.y) - (Q.y - P.y) * (R.x - P.x)

/-- Modelled from the spec: orientation value
`orient(P,Q,R) = sign((Q.x-P.x)*(R.y-P.y) - (Q.y-P.y)*(R.x-P.x))`
(spec section 4.2 step 1); the sympy predicate it abstracts is not part of
the repository's sources. -/
def orient (P Q R : Pt) : ℤ := sgn (cross P Q R)

/-- The two endpoints of a segment ordered by the projection `c`
(used by the collinear case of spec section 4.2 step 3). -/
def ordEnds (c : Pt → ℚ) (s : Seg) : Pt × Pt :=
  if c s.A ≤ c s.B then (s.A, s.B) else (s.B, s.A)

/-- Modelled from the spec: the collinear case of the predicate on one fixed
projection axis (spec section 4.2 step 3): compute the overlap interval of
the two 1-D projections; empty interval yields no result, a touching
interval yields a `Point`, a positive-length interval yields the
overlapping sub-segment. -/
def collinearOn (c : Pt → ℚ) (s1 s2 : Seg) : Option Res :=
  let e1 := ordEnds c s1
  let e2 := ordEnds c s2
  let lo := if c e2.1 ≤ c e1.1 then e1.1 else e2.1
  let hi := if c e1.2 ≤ c e2.2 then e1.2 else e2.2
  if c hi < c lo then none
  else if c lo = c hi then some (Res.point lo)
  else some (Res.overlap lo hi)

/-- Modelled from the spec: the collinear case of the predicate (spec
section 4.2 step 3), projecting both segments onto whichever axis has the
greater extent. -/
def collinearCase (s1 s2 : Seg) : Option Res :=
  if |s1.B.x - s1.A.x| ≥ |s1.B.y - s1.A.y| then collinearOn Pt.x s1 s2
  else collinearOn Pt.y s1 s2

/-- The numeric-degeneracy failure of the crossing-point solve
(spec section 7): a near-singular 2x2 system. -/
inductive NumericDegeneracy where
  | degenerate
deriving DecidableEq

/-- The determinant of the 2x2 linear system built from the two segments'
parametric forms (spec section 4.2 step 2). -/
def solveDet (s1 s2 : Seg) : ℚ :=
  (s1.B.x - s1.A.x) * (s2.B.y - s2.A.y) - (s1.B.y - s1.A.y) * (s2.B.x - s2.A.x)

/-- Modelled from the spec: the exact crossing point obtained by solving the
2x2 linear system from the two segments' parametric forms; fails with
`NumericDegeneracy` only if the determinant is zero (spec section 4.2
step 2). -/
def solveCrossing (s1 s2 : Seg) : Except NumericDegeneracy Pt :=
  let det := solveDet s1 s2
  if det = 0 then Except.error NumericDegeneracy.degenerate
  else
    let t := ((s2.A.x - s1.A.x) * (s2.B.y - s2.A.y)
               - (s2.A.y - s1.A.y) * (s2.B.x - s2.A.x)) / det
    Except.ok ⟨s1.A.x + t * (s1.B.x - s1.A.x), s1.A.y + t * (s1.B.y - s1.A.y)⟩

/-- Modelled from the spec: the geometric predicate of spec section 4.2 with
the crossing-point solve's `NumericDegeneracy` still propagated: collinear
case when all four orientation values vanish; otherwise the orientation-sign
straddle test with zero as a valid straddle boundary, so that an endpoint
lying on the other segment yields that endpoint as a `Point` result (steps
2 and 4); no intersection when the straddle test fails. -/
def interE (s1 s2 : Seg) : Except NumericDegeneracy (Option Res) :=
  let o1 := orient s1.A s1.B s2.A
  let o2 := orient s1.A s1.B s2.B
  let o3 := orient s2.A s2.B s1.A
  let o4 := orient s2.A s2.B s1.B
  if o1 = 0 ∧ o2 = 0 ∧ o3 = 0 ∧ o4 = 0 then Except.ok (collinearCase s1 s2)
  else if o1 * o2 ≤ 0 ∧ o3 * o4 ≤ 0 then
    if o1 = 0 then Except.ok (some (Res.point s2.A))
    else if o2 = 0 then Except.ok (some (Res.point s2.B))
    else if o3 = 0 then Except.ok (some (Res.point s1.A))
    else if o4 = 0 then Except.ok (some (Res.point s1.B))
    else (solveCrossing s1 s2).map (fun p => some (Res.point p))
  else Except.ok none

/-- Modelled from the spec: the intersection predicate exposed to the
enumeration driver; a `NumericDegeneracy` raised by the crossing-point solve
is resolved internally as "no intersection" and never surfaced
(spec sections 4.2 and 7). -/
def inter (s1 s2 : Seg) : Option Res :=
  match interE s1 s2 with
  | Except.error _ => none
  | Except.ok r => r

/-- The predicate in the calling convention of the source loop: a list of
intersection entities, empty when the segments do not meet (the sympy
`intersection` call of line 18 returns a list). -/
def interL (s1 s2 : Seg) : List Res := (inter s1 s2).toList

section Driver

variable {α β : Type}

/-- The enumeration driver of lines 14-20 of
`src/lab3/sympy_intersections.py`: for every `(index, segment)` of the
store and every `(j, value)` of the store, skip the pair when
`j <= index`, evaluate the predicate, and append the non-empty results, in
loop order, to the output sequence. -/
def runPass (pred : α → α → List β) (s : List α) : List (List β) :=
  s.enum.flatMap fun iv =>
    s.enum.flatMap fun jv =>
      if jv.1 ≤ iv.1 then []
      else
        let p := pred iv.2 jv.2
        if p.isEmpty then [] else [p]

/-- The sequence of index pairs at which the driver of lines 14-20 evaluates
the predicate: the same loop with the predicate call site recorded. -/
def testedPairs (s : List α) : List (Nat × Nat) :=
  s.enum.flatMap fun iv =>
    s.enum.flatMap fun jv =>
      if jv.1 ≤ iv.1 then [] else [(iv.1, jv.1)]

/-- The driver of lines 14-20 with each appended record tagged by the index
pair that produced it, following the spec's words ("appends any non-empty
result, tagged with (i,j), to the output sequence"); compared against
`runPass`, the driver translated from the source, which appends the bare
result. -/
def resultPairs (pred : α → α → List β) (s : List α) :
    List ((Nat × Nat) × List β) :=
  s.enum.flatMap fun iv =>
    s.enum.flatMap fun jv =>
      if jv.1 ≤ iv.1 then []
      else
        let p := pred iv.2 jv.2
        if p.isEmpty then [] else [((iv.1, jv.1), p)]

/-- Row i of the pair enumeration: the pairs (i, j) with i < j < n in
increasing j order. -/
def innerRow (n i : Nat) : List (Nat × Nat) :=
  (List.range n).flatMap fun j =>
    if j ≤ i then [] else [(i, j)]

/-- All pairs (i, j) with i < j < n, grouped by i, in loop order. -/
def pairsUpTo (n : Nat) : List (Nat × Nat) :=
  (List.range n).flatMap (innerRow n)

/-- Strict lexicographic order on index pairs. -/
def lexLt (p q : Nat × Nat) : Prop :=
  p.1 < q.1 ∨ (p.1 = q.1 ∧ p.2 < q.2)

end Driver

/-- One full engine pass over a segment store (line 14-20 loop instantiated
with the intersection predicate). -/
def runEngine (store : List Seg) : List (List Res) := runPass interL store

/-- Two engine runs on the same unchanged store, one after the other. -/
def runTwice (store : List Seg) : List (List Res) × List (List Res) :=
  (runEngine store, runEngine store)

/-- The load-time failure of the Segment Store (spec section 7). -/
inductive LoadError where
  | malformedInput
deriving DecidableEq

/-- Modelled from the spec: validation of one input record by the Segment
Store `load` (spec section 4.1): the record must have exactly 4 numeric
fields and its endpoint pair must not be equal; the sympy `Segment`
constructor this models is not part of the repository's sources. -/
def parseRecord (r : List ℚ) : Except LoadError Seg :=
  match r with
  | [x1, y1, x2, y2] =>
      if (Pt.mk x1 y1) = (Pt.mk x2 y2) then Except.error LoadError.malformedInput
      else Except.ok ⟨⟨x1, y1⟩, ⟨x2, y2⟩⟩
  | _ => Except.error LoadError.malformedInput

/-- Modelled from the spec: Segment Store construction (spec section 4.1):
builds the N segments from the input records, failing with
`MalformedInputError` — and producing no partial store — as soon as any
record is invalid. -/
def load (records : List (List ℚ)) : Except LoadError (List Seg) :=
  records.mapM parseRecord

/-- A record that defines a zero-length segment: its endpoint pair is equal. -/
def zeroLengthRecord (r : List ℚ) : Prop :=
  ∃ x y, r = [x, y, x, y]

/-- Configuration computed by the argv handling of
`src/lab3/visualize.py` (lines 7-18): the two data paths and whether the
external bentley_ottman library is used to compute the intersections. -/
structure VizConfig where
  segments_path : String
  intersections_path : String
  use_library : Bool
deriving DecidableEq

/-- Default segments path of `src/lab3/visualize.py` line 7. -/
def defaultSegmentsPath : String := "../data/s_1000_10.dat"

/-- Default intersections path of `src/lab3/visualize.py` line 8. -/
def defaultIntersectionsPath : String := "../data/s_1000_10_intersections.dat"

/-- The argv handling of `src/lab3/visualize.py` lines 11-18: with argv of
length 2 the single user argument replaces the segments path; with length 3
the library is skipped and both paths are replaced; with more than 3 an
exception "To many input arguments!" is raised; otherwise the defaults
stand. -/
def parseArgv (argv : List String) : Except String VizConfig :=
  if argv.length = 2 then
    Except.ok ⟨argv.getD 1 "", defaultIntersectionsPath, true⟩
  else if argv.length = 3 then
    Except.ok ⟨argv.getD 1 "", argv.getD 2 "", false⟩
  else if argv.length > 3 then
    Except.error "To many input arguments!"
  else
    Except.ok ⟨defaultSegmentsPath, defaultIntersectionsPath, true⟩

/-- A concrete three-segment store: three copies of the segment from (0,0)
to (6,0); every unordered pair of distinct indices produces the identical
overlap record, so the appended records cannot determine the contributing
pair. -/
def store3 : List Seg := [⟨⟨0, 0⟩, ⟨6, 0⟩⟩, ⟨⟨0, 0⟩, ⟨6, 0⟩⟩, ⟨⟨0, 0⟩, ⟨6, 0⟩⟩]

section DriverLemmas

variable {α β γ : Type}

/-- Membership in an if-then-else block whose positive branch is empty. -/
lemma mem_ite_nil {c : Prop} [Decidable c] {l : List γ} {x : γ} :
    (x ∈ if c then ([] : List γ) else l) ↔ ¬c ∧ x ∈ l := by
  split <;> simp [*]

/-- A flatMap over an enumerated list whose body uses only the running index
is a flatMap over the index range. -/
lemma enum_flatMap_fst (l : List α) (g : Nat → List γ) :
    (l.enum.flatMap fun iv => g iv.1) = (List.range l.length).flatMap g := by
  rw [← List.enum_map_fst l, List.flatMap_map]

/-- The driver's tested-pair sequence depends only on the store size. -/
lemma testedPairs_eq (s : List α) : testedPairs s = pairsUpTo s.length := by
  have h2 : ∀ i : Nat,
      (s.enum.flatMap fun jv => if jv.1 ≤ i then [] else [(i, jv.1)])
        = innerRow s.length i :=
    fun i => enum_flatMap_fst s (fun j => if j ≤ i then [] else [(i, j)])
  calc testedPairs s
      = (List.range s.length).flatMap
          (fun i => s.enum.flatMap fun jv =>
            if jv.1 ≤ i then [] else [(i, jv.1)]) :=
        enum_flatMap_fst s
          (fun i => s.enum.flatMap fun jv => if jv.1 ≤ i then [] else [(i, jv.1)])
    _ = (List.range s.length).flatMap (innerRow s.length) :=
        congrArg (List.range s.length).flatMap (funext h2)
    _ = pairsUpTo s.length := rfl

/-- Membership in one row of the pair enumeration. -/
lemma mem_innerRow {n i : Nat} {p : Nat × Nat} :
    p ∈ innerRow n i ↔ p.1 = i ∧ i < p.2 ∧ p.2 < n := by
  obtain ⟨a, b⟩ := p
  simp only [innerRow, List.mem_flatMap, List.mem_range, mem_ite_nil,
    List.mem_singleton, Prod.mk.injEq]
  constructor
  · rintro ⟨j, hj, hji, rfl, rfl⟩
    omega
  · rintro ⟨rfl, hab, hbn⟩
    exact ⟨b, hbn, by omega, rfl, rfl⟩

/-- Membership in the full pair enumeration. -/
lemma mem_pairsUpTo {n : Nat} {p : Nat × Nat} :
    p ∈ pairsUpTo n ↔ p.1 < p.2 ∧ p.2 < n := by
  simp only [pairsUpTo, List.mem_flatMap, List.mem_range]
  constructor
  · rintro ⟨i, _, hp⟩
    rcases mem_innerRow.mp hp with ⟨_, h1, h2⟩
    omega
  · rintro ⟨h1, h2⟩
    exact ⟨p.1, by omega, mem_innerRow.mpr ⟨rfl, h1, h2⟩⟩

/-- Pairwise property of a flatMap over a strictly increasing index list. -/
lemma pairwise_flatMap {R : γ → γ → Prop} (f : Nat → List γ)
    (hcross : ∀ a b : Nat, a < b → ∀ x ∈ f a, ∀ y ∈ f b, R x y) :
    ∀ l : List Nat, l.Pairwise (· < ·) → (∀ a ∈ l, (f a).Pairwise R) →
      (l.flatMap f).Pairwise R := by
  intro l
  induction l with
  | nil => intro _ _; simp
  | cons a t ih =>
      intro hl hin
      rw [List.pairwise_cons] at hl
      rw [List.flatMap_cons, List.pairwise_append]
      refine ⟨hin a (List.mem_cons_self a t),
        ih hl.2 (fun b hb => hin b (List.mem_cons_of_mem a hb)), ?_⟩
      intro x hx y hy
      rw [List.mem_flatMap] at hy
      obtain ⟨b, hb, hyb⟩ := hy
      exact hcross a b (hl.1 b hb) x hx y hyb

/-- Each row of the pair enumeration is strictly increasing. -/
lemma pairwise_innerRow (n i : Nat) : (innerRow n i).Pairwise lexLt := by
  unfold innerRow
  refine pairwise_flatMap _ ?_ (List.range n) (List.pairwise_lt_range n)
    (fun a _ => by split <;> simp)
  intro a b hab x hx y hy
  rw [mem_ite_nil, List.mem_singleton] at hx hy
  rw [hx.2, hy.2]
  exact Or.inr ⟨rfl, hab⟩

/-- The pair enumeration is strictly increasing in lexicographic order. -/
lemma pairwise_pairsUpTo (n : Nat) : (pairsUpTo n).Pairwise lexLt := by
  unfold pairsUpTo
  refine pairwise_flatMap _ ?_ (List.range n) (List.pairwise_lt_range n)
    (fun a _ => pairwise_innerRow n a)
  intro a b hab x hx y hy
  exact Or.inl ((mem_innerRow.mp hx).1 ▸ (mem_innerRow.mp hy).1 ▸ hab)

/-- Length of one enumeration row. -/
lemma length_innerRow (n i : Nat) : (innerRow n i).length = n - (i + 1) := by
  induction n with
  | zero => simp [innerRow]
  | succ n ih =>
      unfold innerRow at ih ⊢
      rw [List.range_succ, List.flatMap_append, List.length_append, ih]
      by_cases h : n ≤ i <;> simp [h] <;> omega

/-- The shifted-sum identity used to count the enumeration rows. -/
lemma sum_map_add_one (f : Nat → Nat) (n : Nat) :
    ((List.range n).map (fun i => f i + 1)).sum = ((List.range n).map f).sum + n := by
  induction n with
  | zero => simp
  | succ n ih => simp [List.range_succ, ih]; omega

/-- Gauss count of the reversed identity sum. -/
lemma sum_range_sub (n : Nat) :
    ((List.range n).map (fun i => n - (i + 1))).sum * 2 = n * (n - 1) := by
  induction n with
  | zero => simp
  | succ n ih =>
      have h1 : ((List.range (n + 1)).map (fun i => (n + 1) - (i + 1))).sum
          = ((List.range n).map (fun i => n - i)).sum := by
        rw [List.range_succ, List.map_append, List.sum_append]
        simp [Nat.succ_sub_succ]
      have h2 : ((List.range n).map (fun i => n - i)).sum
          = ((List.range n).map (fun i => n - (i + 1))).sum + n := by
        rw [← sum_map_add_one (fun i => n - (i + 1)) n]
        exact congrArg List.sum
          (List.map_congr_left (fun i hi => by
            rw [List.mem_range] at hi; omega))
      have key : (n + 1) * ((n + 1) - 1) = n * (n - 1) + 2 * n := by
        cases n with
        | zero => rfl
        | succ m => simp only [Nat.add_sub_cancel]; ring
      rw [h1, h2]
      omega

/-- Total length of the pair enumeration, doubled. -/
lemma length_pairsUpTo (n : Nat) : (pairsUpTo n).length * 2 = n * (n - 1) := by
  rw [pairsUpTo, List.length_flatMap]
  have hm : (List.range n).map (List.length ∘ innerRow n)
      = (List.range n).map (fun i => n - (i + 1)) :=
    List.map_congr_left (fun i _ => by simp [length_innerRow])
  rw [hm]
  exact sum_range_sub n

/-- A flatMap is a sublist of a pointwise superlist flatMap. -/
lemma flatMap_sublist {f g : α → List γ} (h : ∀ a, (f a).Sublist (g a)) :
    ∀ l : List α, (l.flatMap f).Sublist (l.flatMap g) := by
  intro l
  induction l with
  | nil => simp
  | cons a t ih =>
      rw [List.flatMap_cons, List.flatMap_cons]
      exact (h a).append ih

/-- A flatMap is pointwise no longer than a flatMap of longer blocks. -/
lemma flatMap_length_le {δ : Type} {f : α → List γ} {g : α → List δ}
    (h : ∀ a, (f a).length ≤ (g a).length) :
    ∀ l : List α, (l.flatMap f).length ≤ (l.flatMap g).length := by
  intro l
  induction l with
  | nil => simp
  | cons a t ih =>
      rw [List.flatMap_cons, List.flatMap_cons, List.length_append,
        List.length_append]
      exact Nat.add_le_add (h a) ih

/-- The source driver appends exactly the untagged geometric results, in the
order of the producing pairs. -/
lemma runPass_eq_map_snd (pred : α → α → List β) (s : List α) :
    runPass pred s = (resultPairs pred s).map Prod.snd := by
  unfold runPass resultPairs
  rw [List.map_flatMap]
  refine congrArg s.enum.flatMap (funext fun iv => ?_)
  rw [List.map_flatMap]
  refine congrArg s.enum.flatMap (funext fun jv => ?_)
  by_cases h : jv.1 ≤ iv.1
  · simp [h]
  · by_cases h2 : (pred iv.2 jv.2).isEmpty <;> simp [h, h2]

/-- The producing pairs of the driver's records form a sublist of the tested
pairs. -/
lemma resultPairs_fst_sublist (pred : α → α → List β) (s : List α) :
    ((resultPairs pred s).map Prod.fst).Sublist (testedPairs s) := by
  unfold resultPairs testedPairs
  rw [List.map_flatMap]
  refine flatMap_sublist (fun iv => ?_) s.enum
  rw [List.map_flatMap]
  refine flatMap_sublist (fun jv => ?_) s.enum
  by_cases h : jv.1 ≤ iv.1
  · simp [h]
  · by_cases h2 : (pred iv.2 jv.2).isEmpty <;>
      simp [h, h2, List.nil_sublist]

/-- Each tested pair contributes at most one record to the output. -/
lemma runPass_length_le_testedPairs (pred : α → α → List β) (s : List α) :
    (runPass pred s).length ≤ (testedPairs s).length := by
  unfold runPass testedPairs
  refine flatMap_length_le ?_ s.enum
  intro iv
  refine flatMap_length_le ?_ s.enum
  intro jv
  by_cases h : jv.1 ≤ iv.1
  · simp [h]
  · by_cases h2 : (pred iv.2 jv.2).isEmpty <;> simp [h, h2]

end DriverLemmas

section LoadLemmas

/-- Loading a cons splits into parsing the head and loading the tail. -/
lemma load_cons (r : List ℚ) (rs : List (List ℚ)) :
    load (r :: rs) =
      (parseRecord r).bind fun sg => (load rs).map fun store => sg :: store := by
  rw [load, List.mapM_cons]
  rcases parseRecord r with e | sg
  · rfl
  · show (load rs).bind _ = _
    rcases load rs with e | store <;> rfl

/-- Any invalid record anywhere in the input aborts the load with
`MalformedInputError` and no partial store. -/
lemma load_error_of_mem {records : List (List ℚ)} {r : List ℚ}
    (hmem : r ∈ records)
    (hbad : parseRecord r = Except.error LoadError.malformedInput) :
    load records = Except.error LoadError.malformedInput := by
  induction records with
  | nil => cases hmem
  | cons a as ih =>
      rw [load_cons]
      rcases List.mem_cons.mp hmem with rfl | htail
      · rw [hbad]; rfl
      · rcases h : parseRecord a with e | sg
        · cases e; rfl
        · rw [ih htail]; rfl

/-- A record with an equal endpoint pair fails validation. -/
lemma parseRecord_zeroLength {r : List ℚ} (h : zeroLengthRecord r) :
    parseRecord r = Except.error LoadError.malformedInput := by
  obtain ⟨x, y, rfl⟩ := h
  simp [parseRecord]

end LoadLemmas

section ConcreteStore

/-- The driver's tagged output on the three-copy store: every one of the
three pairs produces the identical overlap record. -/
lemma resultPairs_store3 :
    resultPairs interL store3 =
      [((0, 1), [Res.overlap ⟨0, 0⟩ ⟨6, 0⟩]),
       ((0, 2), [Res.overlap ⟨0, 0⟩ ⟨6, 0⟩]),
       ((1, 2), [Res.overlap ⟨0, 0⟩ ⟨6, 0⟩])] := by
  norm_num [resultPairs, store3, List.enum, List.enumFrom, interL, inter, interE,
    orient, cross, sgn, collinearCase, collinearOn, ordEnds]

end ConcreteStore

/-- C1 (counterexample): the claim that each appended record carries the
unordered index pair of its contributing segments fails on the source code:
the loop of lines 18-20 appends the bare geometric result, so on the
three-copy store all three records are identical and no tagging function
can recover the distinct producing pairs (0,1) and (0,2) from the records. -/
theorem c1_counterexample :
    ¬ ∃ tag : List Res → Nat × Nat,
        ∀ pr : Nat × Nat, ∀ r : List Res,
          (pr, r) ∈ resultPairs interL store3 → tag r = pr := by
  rintro ⟨tag, h⟩
  have h1 := h (0, 1) [Res.overlap ⟨0, 0⟩ ⟨6, 0⟩] (by rw [resultPairs_store3]; simp)
  have h2 := h (0, 2) [Res.overlap ⟨0, 0⟩ ⟨6, 0⟩] (by rw [resultPairs_store3]; simp)
  rw [h1] at h2
  exact absurd h2 (by decide)

/-- C1 (amended): for every unordered pair of distinct segments with a
non-empty intersection the driver appends one record to the output
sequence, but the record is the bare geometric result alone; the
contributing index pair is not stored in the record and is recoverable only
from the position in the enumeration order. -/
theorem c1_untagged_records {α β : Type} (pred : α → α → List β) (s : List α) :
    runPass pred s = (resultPairs pred s).map Prod.snd :=
  runPass_eq_map_snd pred s

/-- C2: loading fails with `MalformedInputError`, building no partial store,
whenever some record has an equal endpoint pair; in particular the record
(1,1,1,1) is rejected. -/
theorem c2_degenerate_rejection :
    (∀ records : List (List ℚ), ∀ r ∈ records, zeroLengthRecord r →
        load records = Except.error LoadError.malformedInput)
    ∧ load [[1, 1, 1, 1]] = Except.error LoadError.malformedInput := by
  have hmain : ∀ records : List (List ℚ), ∀ r ∈ records, zeroLengthRecord r →
      load records = Except.error LoadError.malformedInput :=
    fun _ _ hmem hzl => load_error_of_mem hmem (parseRecord_zeroLength hzl)
  exact ⟨hmain, hmain [[1, 1, 1, 1]] [1, 1, 1, 1] (by simp) ⟨1, 1, rfl⟩⟩

/-- C2 witness: the degenerate record (1,1,1,1) concretely aborts the load. -/
theorem c2_witness :
    load [[(1 : ℚ), 1, 1, 1]] = Except.error LoadError.malformedInput :=
  c2_degenerate_rejection.1 [[1, 1, 1, 1]] [1, 1, 1, 1] (by simp) ⟨1, 1, rfl⟩

/-- C3: the driver tests exactly the unordered pairs (i, j) with i < j over
the N stored segments, N·(N−1)/2 predicate evaluations in strictly
increasing lexicographic order, and the non-empty results appear in the
output sequence in increasing order of the producing pair. -/
theorem c3_enumeration_order {α β : Type} (pred : α → α → List β) (s : List α) :
    (∀ p : Nat × Nat, p ∈ testedPairs s ↔ p.1 < p.2 ∧ p.2 < s.length)
    ∧ (testedPairs s).length = s.length * (s.length - 1) / 2
    ∧ (testedPairs s).Pairwise lexLt
    ∧ runPass pred s = (resultPairs pred s).map Prod.snd
    ∧ ((resultPairs pred s).map Prod.fst).Pairwise lexLt := by
  refine ⟨fun p => ?_, ?_, ?_, runPass_eq_map_snd pred s, ?_⟩
  · rw [testedPairs_eq]; exact mem_pairsUpTo
  · have h := length_pairsUpTo s.length
    rw [testedPairs_eq]
    omega
  · rw [testedPairs_eq]; exact pairwise_pairsUpTo s.length
  · exact List.Pairwise.sublist (resultPairs_fst_sublist pred s)
      (testedPairs_eq s ▸ pairwise_pairsUpTo s.length)

/-- C4: no self-pair (i, i) is ever passed to the predicate, and every
record of the output is attributed to a pair of distinct indices. -/
theorem c4_self_exclusion {α β : Type} (pred : α → α → List β) (s : List α) :
    (∀ i : Nat, (i, i) ∉ testedPairs s)
    ∧ ∀ pr : Nat × Nat, ∀ r : List β, (pr, r) ∈ resultPairs pred s →
        pr.1 ≠ pr.2 := by
  constructor
  · intro i hmem
    rw [testedPairs_eq, mem_pairsUpTo] at hmem
    exact absurd hmem.1 (lt_irrefl i)
  · intro pr r hmem
    have h1 : pr ∈ (resultPairs pred s).map Prod.fst :=
      List.mem_map_of_mem Prod.fst hmem
    have h2 : pr ∈ testedPairs s :=
      (resultPairs_fst_sublist pred s).subset h1
    rw [testedPairs_eq, mem_pairsUpTo] at h2
    omega

/-- C4 witness: the first record of the three-copy store is attributed to
the pair (0, 1), whose indices are distinct. -/
theorem c4_witness : ((0 : Nat), (1 : Nat)).1 ≠ ((0 : Nat), (1 : Nat)).2 :=
  (c4_self_exclusion interL store3).2 (0, 1) [Res.overlap ⟨0, 0⟩ ⟨6, 0⟩]
    (by rw [resultPairs_store3]; simp)

/-- C5: one full enumeration pass over N segments produces at most
N·(N−1)/2 results. -/
theorem c5_count_bound {α β : Type} (pred : α → α → List β) (s : List α) :
    (runPass pred s).length ≤ s.length * (s.length - 1) / 2 := by
  have h1 := runPass_length_le_testedPairs pred s
  have h2 := length_pairsUpTo s.length
  rw [testedPairs_eq] at h1
  omega

/-- C7: running the engine twice on the same unchanged segment store yields
two identical ordered result sequences. -/
theorem c7_two_runs_identical (store : List Seg) :
    (runTwice store).1 = (runTwice store).2 := rfl

/-- C10: the visualizer raises "To many input arguments!" exactly when more
than two user arguments are supplied; one user argument keeps the external
library in use for the intersections, two user arguments disable the
library and take the intersections from the second path. -/
theorem c10_argv_handling (prog : String) (users : List String) :
    (users.length > 2 →
        parseArgv (prog :: users) = Except.error "To many input arguments!")
    ∧ (users.length ≤ 2 → ∃ cfg, parseArgv (prog :: users) = Except.ok cfg)
    ∧ (∀ a, users = [a] →
        parseArgv (prog :: users) =
          Except.ok ⟨a, defaultIntersectionsPath, true⟩)
    ∧ (∀ a b, users = [a, b] →
        parseArgv (prog :: users) = Except.ok ⟨a, b, false⟩) := by
  rcases users with _ | ⟨a, _ | ⟨b, _ | ⟨c, rest⟩⟩⟩
  · refine ⟨by simp, fun _ => ⟨_, rfl⟩, by simp, by simp⟩
  · refine ⟨by simp, fun _ => ⟨_, rfl⟩, ?_, by simp⟩
    rintro x hx
    rw [List.cons.injEq] at hx
    rw [hx.1]
    rfl
  · refine ⟨by simp, fun _ => ⟨_, rfl⟩, by simp, ?_⟩
    rintro x y hxy
    rw [List.cons.injEq, List.cons.injEq] at hxy
    rw [hxy.1, hxy.2.1]
    rfl
  · refine ⟨fun _ => ?_, ?_, by simp, by simp⟩
    case refine_2 =>
      intro h
      exfalso
      simp only [List.length_cons] at h
      omega
    show parseArgv (prog :: a :: b :: c :: rest) = _
    simp only [parseArgv, List.length_cons]
    have h2 : ¬(rest.length + 1 + 1 + 1 + 1 = 2) := by omega
    have h3 : ¬(rest.length + 1 + 1 + 1 + 1 = 3) := by omega
    have h4 : rest.length + 1 + 1 + 1 + 1 > 3 := by omega
    rw [if_neg h2, if_neg h3, if_pos h4]

/-- C10 witness: two concrete user arguments disable the library and set
both paths. -/
theorem c10_witness :
    parseArgv ["visualize.py", "segs.dat", "ints.dat"] =
      Except.ok ⟨"segs.dat", "ints.dat", false⟩ :=
  (c10_argv_handling "visualize.py" ["segs.dat", "ints.dat"]).2.2.2
    "segs.dat" "ints.dat" rfl


section SignLemmas

lemma sgn_neg {a : ℚ} (h : a < 0) : sgn a = -1 := by
  unfold sgn
  rw [if_pos h]

lemma sgn_zero : sgn 0 = 0 := by
  unfold sgn
  norm_num

lemma sgn_pos {a : ℚ} (h : 0 < a) : sgn a = 1 := by
  unfold sgn
  rw [if_neg (not_lt.mpr h.le), if_neg h.ne']

lemma sgn_eq_zero_iff {a : ℚ} : sgn a = 0 ↔ a = 0 := by
  unfold sgn
  split_ifs with h1 h2
  · exact iff_of_false (by decide) h1.ne
  · exact iff_of_true rfl h2
  · exact iff_of_false (by decide) h2

lemma sgn_mul_nonpos_iff {a b : ℚ} : sgn a * sgn b ≤ 0 ↔ a * b ≤ 0 := by
  rcases lt_trichotomy a 0 with ha | rfl | ha
  · rcases lt_trichotomy b 0 with hb | rfl | hb
    · rw [sgn_neg ha, sgn_neg hb]
      exact iff_of_false (by decide) (not_le.mpr (mul_pos_of_neg_of_neg ha hb))
    · rw [sgn_zero]
      simp
    · rw [sgn_neg ha, sgn_pos hb]
      exact iff_of_true (by decide) (mul_nonpos_of_nonpos_of_nonneg ha.le hb.le)
  · rw [sgn_zero]
    simp
  · rcases lt_trichotomy b 0 with hb | rfl | hb
    · rw [sgn_pos ha, sgn_neg hb]
      exact iff_of_true (by decide) (mul_nonpos_of_nonneg_of_nonpos ha.le hb.le)
    · rw [sgn_zero]
      simp
    · rw [sgn_pos ha, sgn_pos hb]
      exact iff_of_false (by decide) (not_le.mpr (mul_pos ha hb))

end SignLemmas

section CrossLemmas

lemma cross_left (P Q : Pt) : cross P Q P = 0 := by
  unfold cross
  ring

lemma cross_right (P Q : Pt) : cross P Q Q = 0 := by
  unfold cross
  ring

lemma solveDet_eq_b_sub_a (s1 s2 : Seg) :
    solveDet s1 s2 = cross s1.A s1.B s2.B - cross s1.A s1.B s2.A := by
  unfold solveDet cross
  ring

lemma solveDet_eq_c_sub_d (s1 s2 : Seg) :
    solveDet s1 s2 = cross s2.A s2.B s1.A - cross s2.A s2.B s1.B := by
  unfold solveDet cross
  ring

lemma solveDet_swap (s1 s2 : Seg) : solveDet s2 s1 = -solveDet s1 s2 := by
  unfold solveDet
  ring

lemma cross_cancel {ux uy vx vy dx dy : ℚ} (h1 : ux * dy - uy * dx = 0)
    (h2 : vx * dy - vy * dx = 0) (hd : dx ≠ 0 ∨ dy ≠ 0) :
    ux * vy - uy * vx = 0 := by
  rcases hd with hd | hd
  · have key : (ux * vy - uy * vx) * dx
        = (ux * dy - uy * dx) * vx - (vx * dy - vy * dx) * ux := by ring
    rw [h1, h2] at key
    simp only [zero_mul, sub_zero] at key
    exact (mul_eq_zero.mp key).resolve_right hd
  · have key : (ux * vy - uy * vx) * dy
        = (ux * dy - uy * dx) * vy - (vx * dy - vy * dx) * uy := by ring
    rw [h1, h2] at key
    simp only [zero_mul, sub_zero] at key
    exact (mul_eq_zero.mp key).resolve_right hd

lemma seg_dir_ne {s : Seg} (h : s.A ≠ s.B) :
    s.B.x - s.A.x ≠ 0 ∨ s.B.y - s.A.y ≠ 0 := by
  by_contra hc
  push_neg at hc
  exact h (Pt.ext (by linarith [hc.1]) (by linarith [hc.2])).symm

lemma pt_sub_ne {X Y : Pt} (h : X ≠ Y) : X.x - Y.x ≠ 0 ∨ X.y - Y.y ≠ 0 := by
  by_contra hc
  push_neg at hc
  exact h (Pt.ext (by linarith [hc.1]) (by linarith [hc.2]))

lemma lines_unique_meet {s1 s2 : Seg} {X Y : Pt}
    (hABX : cross s1.A s1.B X = 0) (hABY : cross s1.A s1.B Y = 0)
    (hCDX : cross s2.A s2.B X = 0) (hCDY : cross s2.A s2.B Y = 0)
    (hdet : solveDet s1 s2 ≠ 0) : X = Y := by
  by_contra hne
  apply hdet
  have h1 : (s1.B.x - s1.A.x) * (X.y - Y.y)
      - (s1.B.y - s1.A.y) * (X.x - Y.x) = 0 := by
    unfold cross at hABX hABY
    linear_combination hABX - hABY
  have h2 : (s2.B.x - s2.A.x) * (X.y - Y.y)
      - (s2.B.y - s2.A.y) * (X.x - Y.x) = 0 := by
    unfold cross at hCDX hCDY
    linear_combination hCDX - hCDY
  have hkey := cross_cancel h1 h2 (pt_sub_ne hne)
  unfold solveDet
  linear_combination hkey

lemma allzero_of_ab {s1 s2 : Seg} (h1 : s1.A ≠ s1.B)
    (ha : cross s1.A s1.B s2.A = 0) (hb : cross s1.A s1.B s2.B = 0) :
    cross s2.A s2.B s1.A = 0 ∧ cross s2.A s2.B s1.B = 0 := by
  have hu := seg_dir_ne h1
  have hv : (s2.B.x - s2.A.x) * (s1.B.y - s1.A.y)
      - (s2.B.y - s2.A.y) * (s1.B.x - s1.A.x) = 0 := by
    unfold cross at ha hb
    linear_combination ha - hb
  have hw : (s2.A.x - s1.A.x) * (s1.B.y - s1.A.y)
      - (s2.A.y - s1.A.y) * (s1.B.x - s1.A.x) = 0 := by
    unfold cross at ha
    linear_combination -ha
  have hkey := cross_cancel hv hw hu
  constructor
  · unfold cross
    linear_combination -hkey
  · unfold cross at hb ⊢
    linear_combination hv - hkey

lemma det_ne_of_strict {s1 s2 : Seg}
    (hab : cross s1.A s1.B s2.A * cross s1.A s1.B s2.B ≤ 0)
    (hA : cross s1.A s1.B s2.A ≠ 0) (_hB : cross s1.A s1.B s2.B ≠ 0) :
    solveDet s1 s2 ≠ 0 := by
  intro h
  rw [solveDet_eq_b_sub_a] at h
  have heq : cross s1.A s1.B s2.B = cross s1.A s1.B s2.A := by linarith
  rw [heq] at hab
  exact absurd hab (not_le.mpr (mul_self_pos.mpr hA))

end CrossLemmas


section SolveLemmas

lemma solveCrossing_swap {s1 s2 : Seg} (hdet : solveDet s1 s2 ≠ 0) :
    solveCrossing s2 s1 = solveCrossing s1 s2 := by
  have hdet2 : solveDet s2 s1 ≠ 0 := by
    rw [solveDet_swap]
    exact neg_ne_zero.mpr hdet
  unfold solveCrossing
  rw [if_neg hdet2, if_neg hdet]
  refine congrArg Except.ok (Pt.ext ?_ ?_)
  · dsimp only
    rw [solveDet_swap, div_neg]
    field_simp [hdet]
    unfold solveDet
    ring
  · dsimp only
    rw [solveDet_swap, div_neg]
    field_simp [hdet]
    unfold solveDet
    ring

end SolveLemmas


section CollinearLemmas

lemma abs_ratio_aux {a b c d : ℚ} (hb : 0 ≤ b) (hc : 0 ≤ c) (_hd : 0 ≤ d)
    (hprod : a * d = b * c) (hu : 0 < a ∨ 0 < b) (hab : b ≤ a) : d ≤ c := by
  by_contra hlt
  push_neg at hlt
  have hd1 : 0 < d := lt_of_le_of_lt hc hlt
  have h1 : a * d ≤ b * d := by nlinarith
  have h2 : a ≤ b := le_of_mul_le_mul_right h1 hd1
  have h3 : a = b := le_antisymm h2 hab
  have h4 : a * (d - c) = 0 := by nlinarith
  have h5 : a = 0 := by
    rcases mul_eq_zero.mp h4 with h | h
    · exact h
    · exact absurd h (sub_pos.mpr hlt).ne'
  rcases hu with h | h
  · linarith
  · linarith

lemma axis_choice_iff {s1 s2 : Seg} (h1 : s1.A ≠ s1.B) (h2 : s2.A ≠ s2.B)
    (hpar : solveDet s1 s2 = 0) :
    (|s1.B.y - s1.A.y| ≤ |s1.B.x - s1.A.x|
      ↔ |s2.B.y - s2.A.y| ≤ |s2.B.x - s2.A.x|) := by
  have hprod : |s1.B.x - s1.A.x| * |s2.B.y - s2.A.y|
      = |s1.B.y - s1.A.y| * |s2.B.x - s2.A.x| := by
    rw [← abs_mul, ← abs_mul]
    apply congrArg
    unfold solveDet at hpar
    linarith
  have hu : 0 < |s1.B.x - s1.A.x| ∨ 0 < |s1.B.y - s1.A.y| := by
    rcases seg_dir_ne h1 with h | h
    · exact Or.inl (abs_pos.mpr h)
    · exact Or.inr (abs_pos.mpr h)
  have hv : 0 < |s2.B.x - s2.A.x| ∨ 0 < |s2.B.y - s2.A.y| := by
    rcases seg_dir_ne h2 with h | h
    · exact Or.inl (abs_pos.mpr h)
    · exact Or.inr (abs_pos.mpr h)
  constructor
  · intro h
    exact abs_ratio_aux (abs_nonneg _) (abs_nonneg _) (abs_nonneg _) hprod hu h
  · intro h
    refine abs_ratio_aux (abs_nonneg _) (abs_nonneg _) (abs_nonneg _) ?_ hv h
    linear_combination -hprod

lemma collinear_inj_x {s : Seg} {P Q : Pt} (hux : s.B.x - s.A.x ≠ 0)
    (hP : cross s.A s.B P = 0) (hQ : cross s.A s.B Q = 0)
    (hxy : P.x = Q.x) : P = Q := by
  have h : (s.B.x - s.A.x) * (P.y - Q.y) - (s.B.y - s.A.y) * (P.x - Q.x) = 0 := by
    unfold cross at hP hQ
    linear_combination hP - hQ
  have hx0 : P.x - Q.x = 0 := by linarith
  rw [hx0, mul_zero, sub_zero] at h
  have h3 : P.y = Q.y := by
    have := (mul_eq_zero.mp h).resolve_left hux
    linarith
  exact Pt.ext hxy h3

lemma collinear_inj_y {s : Seg} {P Q : Pt} (huy : s.B.y - s.A.y ≠ 0)
    (hP : cross s.A s.B P = 0) (hQ : cross s.A s.B Q = 0)
    (hxy : P.y = Q.y) : P = Q := by
  have h : (s.B.x - s.A.x) * (P.y - Q.y) - (s.B.y - s.A.y) * (P.x - Q.x) = 0 := by
    unfold cross at hP hQ
    linear_combination hP - hQ
  have hy0 : P.y - Q.y = 0 := by linarith
  rw [hy0, mul_zero, zero_sub, neg_eq_zero] at h
  have h3 : P.x = Q.x := by
    have := (mul_eq_zero.mp h).resolve_left huy
    linarith
  exact Pt.ext h3 hxy

lemma pick_max_comm (c : Pt → ℚ) (x y : Pt) (hinj : c x = c y → x = y) :
    (if c y ≤ c x then x else y) = (if c x ≤ c y then y else x) := by
  rcases lt_trichotomy (c x) (c y) with h | h | h
  · rw [if_neg (not_le.mpr h), if_pos h.le]
  · rw [if_pos h.symm.le, if_pos h.le]
    exact hinj h
  · rw [if_pos h.le, if_neg (not_le.mpr h)]

lemma pick_min_comm (c : Pt → ℚ) (x y : Pt) (hinj : c x = c y → x = y) :
    (if c x ≤ c y then x else y) = (if c y ≤ c x then y else x) := by
  rcases lt_trichotomy (c x) (c y) with h | h | h
  · rw [if_pos h.le, if_neg (not_le.mpr h)]
  · rw [if_pos h.le, if_pos h.symm.le]
    exact hinj h
  · rw [if_neg (not_le.mpr h), if_pos h.le]

lemma ordEnds_fst (c : Pt → ℚ) (s : Seg) :
    (ordEnds c s).1 = s.A ∨ (ordEnds c s).1 = s.B := by
  unfold ordEnds
  split
  · exact Or.inl rfl
  · exact Or.inr rfl

lemma ordEnds_snd (c : Pt → ℚ) (s : Seg) :
    (ordEnds c s).2 = s.A ∨ (ordEnds c s).2 = s.B := by
  unfold ordEnds
  split
  · exact Or.inr rfl
  · exact Or.inl rfl

lemma collinearOn_comm {c : Pt → ℚ} {s1 s2 : Seg}
    (hinj : ∀ P Q : Pt, (P = s1.A ∨ P = s1.B) → (Q = s2.A ∨ Q = s2.B) →
      c P = c Q → P = Q) :
    collinearOn c s1 s2 = collinearOn c s2 s1 := by
  have hlo := pick_max_comm c (ordEnds c s1).1 (ordEnds c s2).1
    (hinj _ _ (ordEnds_fst c s1) (ordEnds_fst c s2))
  have hhi := pick_min_comm c (ordEnds c s1).2 (ordEnds c s2).2
    (hinj _ _ (ordEnds_snd c s1) (ordEnds_snd c s2))
  simp only [collinearOn]
  rw [hlo, hhi]

lemma collinearCase_comm {s1 s2 : Seg} (h1 : s1.A ≠ s1.B) (h2 : s2.A ≠ s2.B)
    (ha : cross s1.A s1.B s2.A = 0) (hb : cross s1.A s1.B s2.B = 0)
    (_hc : cross s2.A s2.B s1.A = 0) (_hd : cross s2.A s2.B s1.B = 0) :
    collinearCase s1 s2 = collinearCase s2 s1 := by
  have hpar : solveDet s1 s2 = 0 := by
    rw [solveDet_eq_b_sub_a, ha, hb]
    ring
  have haxis := axis_choice_iff h1 h2 hpar
  unfold collinearCase
  by_cases hx : |s1.B.x - s1.A.x| ≥ |s1.B.y - s1.A.y|
  · rw [if_pos hx, if_pos (haxis.mp hx)]
    refine collinearOn_comm ?_
    intro P Q hP hQ hpq
    have hux : s1.B.x - s1.A.x ≠ 0 := by
      rcases seg_dir_ne h1 with h | h
      · exact h
      · intro h0
        rw [h0, abs_zero] at hx
        exact h (abs_eq_zero.mp (le_antisymm hx (abs_nonneg _)))
    have hPl : cross s1.A s1.B P = 0 := by
      rcases hP with rfl | rfl
      · exact cross_left _ _
      · exact cross_right _ _
    have hQl : cross s1.A s1.B Q = 0 := by
      rcases hQ with rfl | rfl
      · exact ha
      · exact hb
    exact collinear_inj_x hux hPl hQl hpq
  · rw [if_neg hx, if_neg (fun h => hx (haxis.mpr h))]
    refine collinearOn_comm ?_
    intro P Q hP hQ hpq
    have huy : s1.B.y - s1.A.y ≠ 0 := by
      intro h0
      apply hx
      rw [h0, abs_zero]
      exact abs_nonneg _
    have hPl : cross s1.A s1.B P = 0 := by
      rcases hP with rfl | rfl
      · exact cross_left _ _
      · exact cross_right _ _
    have hQl : cross s1.A s1.B Q = 0 := by
      rcases hQ with rfl | rfl
      · exact ha
      · exact hb
    exact collinear_inj_y huy hPl hQl hpq

end CollinearLemmas


section PredicateLemmas

/-- The predicate with its orientation-sign conditions restated on the raw
cross products. -/
lemma interE_char (s1 s2 : Seg) :
    interE s1 s2 =
      (if cross s1.A s1.B s2.A = 0 ∧ cross s1.A s1.B s2.B = 0
          ∧ cross s2.A s2.B s1.A = 0 ∧ cross s2.A s2.B s1.B = 0 then
        Except.ok (collinearCase s1 s2)
      else if cross s1.A s1.B s2.A * cross s1.A s1.B s2.B ≤ 0
          ∧ cross s2.A s2.B s1.A * cross s2.A s2.B s1.B ≤ 0 then
        if cross s1.A s1.B s2.A = 0 then Except.ok (some (Res.point s2.A))
        else if cross s1.A s1.B s2.B = 0 then Except.ok (some (Res.point s2.B))
        else if cross s2.A s2.B s1.A = 0 then Except.ok (some (Res.point s1.A))
        else if cross s2.A s2.B s1.B = 0 then Except.ok (some (Res.point s1.B))
        else (solveCrossing s1 s2).map fun p => some (Res.point p)
      else Except.ok none) := by
  unfold interE orient
  simp only [sgn_eq_zero_iff, sgn_mul_nonpos_iff]

lemma interE_comm {s1 s2 : Seg} (h1 : s1.A ≠ s1.B) (h2 : s2.A ≠ s2.B) :
    interE s1 s2 = interE s2 s1 := by
  rw [interE_char, interE_char]
  by_cases hz : cross s1.A s1.B s2.A = 0 ∧ cross s1.A s1.B s2.B = 0
      ∧ cross s2.A s2.B s1.A = 0 ∧ cross s2.A s2.B s1.B = 0
  · rw [if_pos hz,
      if_pos (And.intro hz.2.2.1 (And.intro hz.2.2.2 (And.intro hz.1 hz.2.1)))]
    exact congrArg Except.ok
      (collinearCase_comm h1 h2 hz.1 hz.2.1 hz.2.2.1 hz.2.2.2)
  · rw [if_neg hz,
      if_neg (show ¬(cross s2.A s2.B s1.A = 0 ∧ cross s2.A s2.B s1.B = 0
          ∧ cross s1.A s1.B s2.A = 0 ∧ cross s1.A s1.B s2.B = 0) from
        fun h => hz (And.intro h.2.2.1
          (And.intro h.2.2.2 (And.intro h.1 h.2.1))))]
    by_cases hs : cross s1.A s1.B s2.A * cross s1.A s1.B s2.B ≤ 0
        ∧ cross s2.A s2.B s1.A * cross s2.A s2.B s1.B ≤ 0
    · rw [if_pos hs, if_pos (And.intro hs.2 hs.1)]
      by_cases hA : cross s1.A s1.B s2.A = 0
      · conv_lhs => rw [if_pos hA]
        by_cases hB : cross s1.A s1.B s2.B = 0
        · exact absurd (And.intro hA (And.intro hB (allzero_of_ab h1 hA hB))) hz
        · have hdet : solveDet s1 s2 ≠ 0 := by
            rw [solveDet_eq_b_sub_a, hA, sub_zero]
            exact hB
          by_cases hC : cross s2.A s2.B s1.A = 0
          · conv_rhs => rw [if_pos hC]
            rw [lines_unique_meet hA (cross_left s1.A s1.B)
              (cross_left s2.A s2.B) hC hdet]
          · conv_rhs => rw [if_neg hC]
            by_cases hD : cross s2.A s2.B s1.B = 0
            · conv_rhs => rw [if_pos hD]
              rw [lines_unique_meet hA (cross_right s1.A s1.B)
                (cross_left s2.A s2.B) hD hdet]
            · conv_rhs => rw [if_neg hD, if_pos hA]
      · conv_lhs => rw [if_neg hA]
        by_cases hB : cross s1.A s1.B s2.B = 0
        · conv_lhs => rw [if_pos hB]
          have hdet : solveDet s1 s2 ≠ 0 := by
            rw [solveDet_eq_b_sub_a, hB, zero_sub]
            exact neg_ne_zero.mpr hA
          by_cases hC : cross s2.A s2.B s1.A = 0
          · conv_rhs => rw [if_pos hC]
            rw [lines_unique_meet hB (cross_left s1.A s1.B)
              (cross_right s2.A s2.B) hC hdet]
          · conv_rhs => rw [if_neg hC]
            by_cases hD : cross s2.A s2.B s1.B = 0
            · conv_rhs => rw [if_pos hD]
              rw [lines_unique_meet hB (cross_right s1.A s1.B)
                (cross_right s2.A s2.B) hD hdet]
            · conv_rhs => rw [if_neg hD, if_neg hA, if_pos hB]
        · conv_lhs => rw [if_neg hB]
          by_cases hC : cross s2.A s2.B s1.A = 0
          · conv_lhs => rw [if_pos hC]
            conv_rhs => rw [if_pos hC]
          · conv_lhs => rw [if_neg hC]
            conv_rhs => rw [if_neg hC]
            by_cases hD : cross s2.A s2.B s1.B = 0
            · conv_lhs => rw [if_pos hD]
              conv_rhs => rw [if_pos hD]
            · conv_lhs => rw [if_neg hD]
              conv_rhs => rw [if_neg hD, if_neg hA, if_neg hB]
              have hdet := det_ne_of_strict hs.1 hA hB
              rw [solveCrossing_swap hdet]
    · rw [if_neg hs,
        if_neg (show ¬(cross s2.A s2.B s1.A * cross s2.A s2.B s1.B ≤ 0
            ∧ cross s1.A s1.B s2.A * cross s1.A s1.B s2.B ≤ 0) from
          fun h => hs (And.intro h.2 h.1))]

/-- Symmetry of the resolved predicate. -/
lemma inter_swap {s1 s2 : Seg} (h1 : s1.A ≠ s1.B) (h2 : s2.A ≠ s2.B) :
    inter s1 s2 = inter s2 s1 := by
  unfold inter
  rw [interE_comm h1 h2]

end PredicateLemmas

/-- C6: the intersection predicate is symmetric: for all pairs of
non-degenerate segments the two evaluation orders agree, up to swapping the
endpoint order of any Overlap result (here they agree exactly). -/
theorem c6_predicate_symmetry (s1 s2 : Seg)
    (h1 : s1.A ≠ s1.B) (h2 : s2.A ≠ s2.B) :
    inter s1 s2 = inter s2 s1
    ∨ ∃ p q : Pt, inter s1 s2 = some (Res.overlap p q)
        ∧ inter s2 s1 = some (Res.overlap q p) :=
  Or.inl (inter_swap h1 h2)

/-- C6 witness: symmetry holds concretely for the crossing pair
(0,0)-(2,2) and (0,2)-(2,0). -/
theorem c6_witness :
    inter ⟨⟨0, 0⟩, ⟨2, 2⟩⟩ ⟨⟨0, 2⟩, ⟨2, 0⟩⟩
        = inter ⟨⟨0, 2⟩, ⟨2, 0⟩⟩ ⟨⟨0, 0⟩, ⟨2, 2⟩⟩
    ∨ ∃ p q : Pt, inter ⟨⟨0, 0⟩, ⟨2, 2⟩⟩ ⟨⟨0, 2⟩, ⟨2, 0⟩⟩
          = some (Res.overlap p q)
        ∧ inter ⟨⟨0, 2⟩, ⟨2, 0⟩⟩ ⟨⟨0, 0⟩, ⟨2, 2⟩⟩ = some (Res.overlap q p) :=
  c6_predicate_symmetry ⟨⟨0, 0⟩, ⟨2, 2⟩⟩ ⟨⟨0, 2⟩, ⟨2, 0⟩⟩
    (by norm_num [Pt.mk.injEq, Seg.mk.injEq])
    (by norm_num [Pt.mk.injEq, Seg.mk.injEq])

/-- C8: the predicate returns a definite classification for every pair —
no intersection, a point, or an overlap — and the `NumericDegeneracy` of
the crossing-point solve is never surfaced: the propagating variant of the
predicate never returns an error. -/
theorem c8_definite_classification (s1 s2 : Seg) :
    (inter s1 s2 = none
      ∨ (∃ p, inter s1 s2 = some (Res.point p))
      ∨ ∃ p q, inter s1 s2 = some (Res.overlap p q))
    ∧ ∀ e : NumericDegeneracy, interE s1 s2 ≠ Except.error e := by
  constructor
  · cases h : inter s1 s2 with
    | none => exact Or.inl rfl
    | some r =>
        cases r with
        | point p => exact Or.inr (Or.inl ⟨p, rfl⟩)
        | overlap p q => exact Or.inr (Or.inr ⟨p, q, rfl⟩)
  · intro e h
    rw [interE_char] at h
    split_ifs at h with hz hs hA hB hC hD
    have hdet := det_ne_of_strict hs.1 hA hB
    simp only [solveCrossing, if_neg hdet, Except.map] at h
    exact Except.noConfusion h

/-- C9: the two collinear segments (0,0)-(4,0) and (2,0)-(6,0) produce an
Overlap result whose sub-segment spans exactly (2,0) to (4,0). -/
theorem c9_collinear_overlap :
    inter ⟨⟨0, 0⟩, ⟨4, 0⟩⟩ ⟨⟨2, 0⟩, ⟨6, 0⟩⟩
      = some (Res.overlap ⟨2, 0⟩ ⟨4, 0⟩) := by
  norm_num [inter, interE, orient, cross, sgn, collinearCase, collinearOn,
    ordEnds]

end CGLab
